import Mathlib

namespace PriceTracker

/-!
# Verification of the price-tracker extraction and change-detection engine

Shallow embedding of `price_tracker.py`: candidate filtering, structured
(selector) extraction, regex fallback extraction, JSON price search, site
classification, and the change-detection / alerting decision of `check_item`.

Python integers are modelled by `ℤ`, strings by `String` / `List Char`
(ASCII semantics for case folding, digits and word characters), JSON by an
inductive tree, and the SQLite history table by a list of rows in insertion
order.  Network fetches are modelled by passing their results as inputs.
-/

/-- `MIN_REASONABLE_PRICE` from the config section of `price_tracker.py`. -/
def MIN_REASONABLE_PRICE : ℤ := 1000

/-- `MAX_REASONABLE_PRICE` from the config section of `price_tracker.py`. -/
def MAX_REASONABLE_PRICE : ℤ := 200000

/-- The digit characters of a string, in order: models
`re.sub(r"[^\d]", "", s)` (ASCII digits). -/
def digitsOf (s : List Char) : List Char := s.filter Char.isDigit

/-- Base-10 value of a list of digit characters, as `int(...)` computes it. -/
def digitsToInt (ds : List Char) : ℤ :=
  ds.foldl (fun acc c => acc * 10 + ((c.toNat : ℤ) - 48)) 0

/-- `only_digits_int(s)`: strip all non-digit characters and parse the rest
as an integer; `None` when no digit remains. -/
def only_digits_int (s : String) : Option ℤ :=
  let ds := digitsOf s.data
  if ds = [] then none else some (digitsToInt ds)

/-- ASCII case folding of one character, as `str.lower()` acts on the
ASCII range (other characters are left unchanged). -/
def lowerChar (c : Char) : Char :=
  if 65 ≤ c.toNat ∧ c.toNat ≤ 90 then Char.ofNat (c.toNat + 32) else c

/-- ASCII case folding of a string: models `s.lower()`. -/
def lowerStr (s : String) : String := String.mk (s.data.map lowerChar)

/-- The accumulator loop of `filter_candidates`: drop `None`, drop values
outside the reasonable-price bounds, and keep the first occurrence of each
surviving value (`if v not in cleaned: cleaned.append(v)`). -/
def clean : List (Option ℤ) → List ℤ → List ℤ
  | [], acc => acc
  | none :: rest, acc => clean rest acc
  | some v :: rest, acc =>
    if v < MIN_REASONABLE_PRICE ∨ MAX_REASONABLE_PRICE < v then clean rest acc
    else if v ∈ acc then clean rest acc
    else clean rest (acc ++ [v])

/-- `filter_candidates(candidates)`: the cleaning loop followed by
`cleaned.sort()` (ascending). -/
def filter_candidates (candidates : List (Option ℤ)) : List ℤ :=
  (clean candidates []).insertionSort (· ≤ ·)

/-- A value is in the configured reasonable-price bounds. -/
def inBounds (v : ℤ) : Prop := MIN_REASONABLE_PRICE ≤ v ∧ v ≤ MAX_REASONABLE_PRICE

instance (v : ℤ) : Decidable (inBounds v) := by unfold inBounds; infer_instance

/-! ## String helpers: substring search, the EMI/installment regex -/

/-- `pfx n h`: `n` is a prefix of `h` (character lists). -/
def pfx : List Char → List Char → Bool
  | [], _ => true
  | _ :: _, [] => false
  | a :: as, b :: bs => a = b && pfx as bs

/-- `hasSub n h`: `n` occurs as a contiguous substring of `h`; models
Python's `n in h` on strings. -/
def hasSub (n : List Char) : List Char → Bool
  | [] => pfx n []
  | c :: rest => pfx n (c :: rest) || hasSub n rest

/-- `hasSubStr n h`: substring test on `String`s. -/
def hasSubStr (n h : String) : Bool := hasSub n.data h.data

/-- ASCII word character, as in the regex `\b` boundary: letters, digits
and underscore. -/
def isWordChar (c : Char) : Bool := c.isAlphanum || c = '_'

/-- `\b` immediately after a match ending in a word character: true at end
of input or before a non-word character. -/
def moBoundary : List Char → Bool
  | [] => true
  | c :: _ => !isWordChar c

/-- `re.search(r"/|per month|mo\b|EMI|emi", val, re.I)` as a predicate on
the already lower-cased character list: some position starts `/`,
`per month`, `emi`, or `mo` followed by a word boundary. -/
def emi_reject : List Char → Bool
  | [] => false
  | c :: rest =>
    c = '/'
    || pfx "per month".data (c :: rest)
    || pfx "emi".data (c :: rest)
    || (c = 'm' && (match rest with
        | 'o' :: rest2 => moBoundary rest2
        | _ => false))
    || emi_reject rest

/-! ## Structured extraction via CSS selectors -/

/-- A parsed document, as `extract_candidates_by_selectors` reads it:
`content sel` models `soup.select_one(sel).get("content")` (with `none`
for a missing element or attribute), `text sel` models
`soup.select_one(sel).get_text()` (`none` for a missing element). -/
structure Soup where
  content : String → Option String
  text : String → Option String

/-- An apostrophe character, used inside selector string literals. -/
def apos : Char := Char.ofNat 39

/-- The selector string `meta[itemprop='price']`. -/
def metaItempropPrice : String :=
  "meta[itemprop=" ++ String.singleton apos ++ "price" ++ String.singleton apos ++ "]"

/-- `SITE_SELECTORS["amazon"]`. -/
def amazon_selectors : List String :=
  ["#priceblock_ourprice", "#priceblock_dealprice", ".a-price .a-offscreen",
   ".a-price-whole", metaItempropPrice]

/-- `SITE_SELECTORS["default"]`. -/
def default_selectors : List String :=
  [".price", ".product-price", metaItempropPrice, ".offer-price"]

/-- The raw value read for one selector: the `content` attribute for
`meta...` selectors, element text otherwise; `""` when nothing is there. -/
def read_val (soup : Soup) (sel : String) : String :=
  if pfx "meta".data sel.data then (soup.content sel).getD ""
  else (soup.text sel).getD ""

/-- The candidates one selector contributes in the loop body of
`extract_candidates_by_selectors`: skip empty values, skip values matching
the EMI/installment regex, then parse digits and keep a truthy result. -/
def sel_candidates (soup : Soup) (sel : String) : List ℤ :=
  let val := read_val soup sel
  if val = "" then []
  else if emi_reject (lowerStr val).data then []
  else match only_digits_int val with
    | some n => if n = 0 then [] else [n]
    | none => []

/-- `extract_candidates_by_selectors(soup, selectors)`: the loop appends
each selector's contribution in order. -/
def extract_candidates_by_selectors (soup : Soup) (selectors : List String) : List ℤ :=
  selectors.flatMap (sel_candidates soup)

/-! ## Regex fallback extraction -/

/-- A digit or comma: the character class `[\d,]`. -/
def isDigitComma (c : Char) : Bool := c.isDigit || c = ','

/-- ASCII whitespace, the `\s` class. -/
def isPySpace (c : Char) : Bool :=
  c = ' ' || c = '\t' || c = '\n' || c = '\r' || c = '\x0b' || c = '\x0c'

/-- Matching `\s*([\d,]{3,7})` directly after a `₹`: skip whitespace, then
greedily take up to 7 digit/comma characters; succeed when at least 3. -/
def rupeeAt (cs : List Char) : Option (List Char) :=
  let ds := ((cs.dropWhile isPySpace).takeWhile isDigitComma).take 7
  if 3 ≤ ds.length then some ds else none

/-- The scan loop of `re.finditer(r"₹\s*([\d,]{3,7})", text)`: at a `₹`
try the match and resume after its end (the `₹`, the skipped whitespace and
the captured group), otherwise advance one character.  The fuel argument
only bounds the recursion; every step consumes at least one character, so
a fuel equal to the text length never runs out. -/
def rupee_scan : ℕ → List Char → List (List Char)
  | 0, _ => []
  | _ + 1, [] => []
  | fuel + 1, c :: rest =>
    if c = '₹' then
      match rupeeAt rest with
      | some ds =>
        ds :: rupee_scan fuel (rest.drop ((rest.takeWhile isPySpace).length + ds.length))
      | none => rupee_scan fuel rest
    else rupee_scan fuel rest

/-- All groups of `re.finditer(r"₹\s*([\d,]{3,7})", text)` in order:
non-overlapping leftmost matches. -/
def rupee_matches (l : List Char) : List (List Char) := rupee_scan l.length l

/-- The leftmost group of `re.search(r"₹\s*([\d,]{3,7})", s)`, as used on
string values inside JSON documents. -/
def rupee_search : List Char → Option (List Char)
  | [] => none
  | c :: rest =>
    if c = '₹' then
      match rupeeAt rest with
      | some ds => some ds
      | none => rupee_search rest
    else rupee_search rest

/-- The scan loop of `re.finditer(r"([\d,]{4,7})", text)`: at a digit/comma
run the engine matches up to 7 characters when at least 4 are available,
resumes after the match, and positions inside a too-short remainder of a
run all fail, so the run is skipped.  The fuel only bounds the recursion. -/
def bare_scan : ℕ → List Char → List (List Char)
  | 0, _ => []
  | _ + 1, [] => []
  | fuel + 1, c :: rest =>
    if isDigitComma c then
      let run := c :: rest.takeWhile isDigitComma
      let g := run.take 7
      if 4 ≤ g.length then g :: bare_scan fuel (rest.drop (g.length - 1))
      else bare_scan fuel (rest.drop (run.length - 1))
    else bare_scan fuel rest

/-- All groups of `re.finditer(r"([\d,]{4,7})", text)` in order.  As with
`rupee_scan`, the fuel equal to the text length never runs out because
each step consumes at least one character. -/
def bare_matches (l : List Char) : List (List Char) := bare_scan l.length l

/-- The truthy parsed values of a list of regex groups: the body
`n = only_digits_int(m.group(1)); if n: candidates.append(n)` of both
loops of `fallback_regex_candidates`, as a flat list. -/
def pass_candidates (groups : List (List Char)) : List ℤ :=
  groups.flatMap fun g =>
    match only_digits_int (String.mk g) with
    | some n => if n = 0 then [] else [n]
    | none => []

/-- `fallback_regex_candidates(text)`: one candidates list, appended to by
the currency-prefixed pass and then by the bare digit-group pass. -/
def fallback_regex_candidates (text : String) : List ℤ :=
  let candidates : List ℤ := []
  let candidates := (rupee_matches text.data).foldl (fun acc g =>
    match only_digits_int (String.mk g) with
    | some n => if n = 0 then acc else acc ++ [n]
    | none => acc) candidates
  (bare_matches text.data).foldl (fun acc g =>
    match only_digits_int (String.mk g) with
    | some n => if n = 0 then acc else acc ++ [n]
    | none => acc) candidates

/-! ## Price selection over a fetched page -/

/-- `extract_price_from_html(soup, text, url)`: selector candidates for the
site profile, then combined with the default profile's candidates, then the
regex fallback; the first stage whose filtered set is non-empty supplies
`filtered[0]`. -/
def extract_price_from_html (soup : Soup) (text : String) (url : Option String) : Option ℤ :=
  let url_l := lowerStr (url.getD "")
  let selectors := if hasSubStr "amazon" url_l then amazon_selectors else default_selectors
  let candidates := extract_candidates_by_selectors soup selectors
  match filter_candidates (candidates.map some) with
  | p :: _ => some p
  | [] =>
    let candidates2 := extract_candidates_by_selectors soup default_selectors
    match filter_candidates ((candidates ++ candidates2).map some) with
    | p :: _ => some p
    | [] =>
      let candidates3 := fallback_regex_candidates text
      match filter_candidates (candidates3.map some) with
      | p :: _ => some p
      | [] => none

/-- `guess_site(url)`: falsy URL yields `"unknown"`, then case-insensitive
substring tests for `"amazon."` and `"flipkart."` in that order. -/
def guess_site (url : Option String) : String :=
  match url with
  | none => "unknown"
  | some u =>
    if u = "" then "unknown"
    else
      let ul := lowerStr u
      if hasSubStr "amazon." ul then "amazon"
      else if hasSubStr "flipkart." ul then "flipkart"
      else "unknown"

/-! ## JSON price search -/

/-- A parsed JSON document: objects keep their field order, as Python dicts
do. -/
inductive Json where
  | str : String → Json
  | num : ℤ → Json
  | bool : Bool → Json
  | null : Json
  | arr : List Json → Json
  | obj : List (String × Json) → Json

/-- `str(v)` for a scalar JSON value as Python renders it; containers are
never passed here by `find_price_in_json`. -/
def pyScalarStr : Json → String
  | .str s => s
  | .num n => toString n
  | .bool true => "True"
  | .bool false => "False"
  | .null => "None"
  | .arr _ => ""
  | .obj _ => ""

/-- The price-key whitelist tuple of `find_price_in_json` (with
`"finalPrice".lower()` and `"sellingPrice".lower()` evaluated). -/
def price_key_whitelist : List String :=
  ["finalprice", "final_price", "finalprice", "price", "sellingprice", "sp"]

/-- `v` is a dict or a list, the recursion branch of the loop. -/
def isContainer : Json → Bool
  | .obj _ => true
  | .arr _ => true
  | _ => false

/-- The whitelist check on one scalar object entry: coerce the value to
digits, require a truthy in-bounds number. -/
def whitelistHit (k : String) (v : Json) : Option ℤ :=
  if lowerStr k ∈ price_key_whitelist then
    match only_digits_int (pyScalarStr v) with
    | some n =>
      if n ≠ 0 ∧ MIN_REASONABLE_PRICE ≤ n ∧ n ≤ MAX_REASONABLE_PRICE then some n else none
    | none => none
  else none

/-- The currency-pattern check on a string value: the first
`₹\s*([\d,]{3,7})` group, digits-coerced, truthy and in-bounds. -/
def rupeeHit : Json → Option ℤ
  | .str s =>
    match rupee_search s.data with
    | some g =>
      match only_digits_int (String.mk g) with
      | some n =>
        if n ≠ 0 ∧ MIN_REASONABLE_PRICE ≤ n ∧ n ≤ MAX_REASONABLE_PRICE then some n else none
      | none => none
    | none => none
  | _ => none

mutual

/-- `find_price_in_json(obj)`: walk dicts and lists depth-first in field
order; recurse into container values and propagate a truthy result; on
scalar entries try the whitelist check and then, for string values, the
currency pattern; return the first truthy in-bounds hit. -/
def find_price_in_json : Json → Option ℤ
  | .obj kvs => find_in_obj kvs
  | .arr xs => find_in_arr xs
  | _ => none

/-- The `for k, v in obj.items()` loop of `find_price_in_json`. -/
def find_in_obj : List (String × Json) → Option ℤ
  | [] => none
  | (k, v) :: rest =>
    if isContainer v then
      match find_price_in_json v with
      | some p => if p = 0 then find_in_obj rest else some p
      | none => find_in_obj rest
    else
      match whitelistHit k v with
      | some n => some n
      | none =>
        match rupeeHit v with
        | some n => some n
        | none => find_in_obj rest

/-- The `for item in obj` loop of `find_price_in_json`. -/
def find_in_arr : List Json → Option ℤ
  | [] => none
  | x :: rest =>
    match find_price_in_json x with
    | some p => if p = 0 then find_in_arr rest else some p
    | none => find_in_arr rest

end

mutual

/-- All in-bounds hits of the `find_price_in_json` walk, in the order the
depth-first traversal encounters them (whitelist hit before currency-pattern
hit on the same entry). -/
def jsonHits : Json → List ℤ
  | .obj kvs => hitsObj kvs
  | .arr xs => hitsArr xs
  | _ => []

/-- The hits contributed by the entries of one dict, in field order. -/
def hitsObj : List (String × Json) → List ℤ
  | [] => []
  | (k, v) :: rest =>
    (if isContainer v then jsonHits v
     else
       match whitelistHit k v with
       | some n => [n]
       | none =>
         match rupeeHit v with
         | some n => [n]
         | none => []) ++ hitsObj rest

/-- The hits contributed by the items of one list, in order. -/
def hitsArr : List Json → List ℤ
  | [] => []
  | x :: rest => jsonHits x ++ hitsArr rest

end

/-- `if data:` truthiness of a parsed JSON value in
`fetch_flipkart_price_by_pid`. -/
def pyTruthyJson : Json → Bool
  | .obj kvs => !kvs.isEmpty
  | .arr xs => !xs.isEmpty
  | .str s => s ≠ ""
  | .num n => n ≠ 0
  | .bool b => b
  | .null => false

/-- `fetch_flipkart_price_by_pid`: the endpoint loop, with each endpoint's
network/parse outcome supplied as an input (`none` models a non-200 status,
a parse failure or an exception).  A truthy `find_price_in_json` result on
a truthy document is returned; otherwise the next endpoint is tried. -/
def fetch_flipkart_price_by_pid : List (Option Json) → Option ℤ
  | [] => none
  | r :: rest =>
    match r with
    | some data =>
      if pyTruthyJson data then
        match find_price_in_json data with
        | some p => if p = 0 then fetch_flipkart_price_by_pid rest else some p
        | none => fetch_flipkart_price_by_pid rest
      else fetch_flipkart_price_by_pid rest
    | none => fetch_flipkart_price_by_pid rest

/-! ## History store and change detection -/

/-- One row of the `price_history` table, in insertion (`id`) order inside
a history list.  `checked_at` is a timestamp; ISO-8601 strings compare
chronologically, so it is modelled as an integer. -/
structure Obs where
  url : String
  site : String
  product_name : String
  price : ℤ
  checked_at : ℤ

/-- `SELECT price FROM price_history WHERE url = ? ORDER BY id DESC LIMIT 1`:
the price of the last inserted row for the key. -/
def get_last_price (hist : List Obs) (key : String) : Option ℤ :=
  ((hist.filter fun o => o.url = key).map Obs.price).getLast?

/-- `SELECT MIN(price) ...`: `NULL` on an empty row set. -/
def sql_min : List ℤ → Option ℤ
  | [] => none
  | x :: xs => some (xs.foldl min x)

/-- The prices eligible for `last_n_days_low`: rows for the key whose
`checked_at` is at or after the cutoff (`utcnow() - timedelta(days=days)`). -/
def window_prices (hist : List Obs) (key : String) (cutoff : ℤ) : List ℤ :=
  (hist.filter fun o => o.url = key ∧ cutoff ≤ o.checked_at).map Obs.price

/-- `last_n_days_low(url, days)`: the SQL minimum over the window, returned
only when the fetched cell is truthy (`if row and row[0]`). -/
def last_n_days_low (hist : List Obs) (key : String) (cutoff : ℤ) : Option ℤ :=
  match sql_min (window_prices hist key cutoff) with
  | some m => if m = 0 then none else some m
  | none => none

/-- The rolling-low figure interpolated into the price-drop message:
`last_n_days_low(url or flipkart_pid) or price`. -/
def reported_rolling_low (hist : List Obs) (key : String) (cutoff : ℤ) (price : ℤ) : ℤ :=
  match last_n_days_low hist key cutoff with
  | some m => m
  | none => price

/-- The three outcome classes of one observation in `check_item`. -/
inductive AlertKind where
  | new_tracking
  | price_drop
  | no_change
deriving DecidableEq

/-- The decision `check_item` reaches for one observation: which branch of
the comparison block ran, the percentage drop it computes (exact rational
arithmetic in place of Python floats), and whether a Telegram message is
sent. -/
structure AlertDecision where
  kind : AlertKind
  percentDrop : Option ℚ
  notified : Bool
deriving DecidableEq

/-- The comparison-and-alert block of `check_item` (the branch on the last
stored price): no prior row sends the started-tracking message; a strictly
lower price sends the drop message with
`pct = (last_price - price) / last_price * 100`; anything else sends
nothing. -/
def check_alert (hist : List Obs) (key : String) (price : ℤ) : AlertDecision :=
  match get_last_price hist key with
  | some last_price =>
    if price < last_price then
      { kind := .price_drop,
        percentDrop := some (((last_price : ℚ) - (price : ℚ)) / (last_price : ℚ) * 100),
        notified := true }
    else
      { kind := .no_change, percentDrop := none, notified := false }
  | none => { kind := .new_tracking, percentDrop := none, notified := true }

/-- `if flipkart_pid:` / `if url:` truthiness of an optional string. -/
def truthyStr : Option String → Bool
  | none => false
  | some s => s ≠ ""

/-- The `if not price: return` guard of `check_item`: a falsy price
(absent or zero) aborts the check. -/
def py_truthy_guard : Option ℤ → Option ℤ
  | some p => if p = 0 then none else some p
  | none => none

/-- The price `check_item(item)` hands to `save_price`, or `none` when the
check returns early.  External effects are inputs: `responses` is the parsed
body per Flipkart API endpoint, `page` is the fetched page (`none` when
`get_page` fails) as parsed soup plus raw text. -/
def check_item_saved_price (url flipkart_pid : Option String)
    (responses : List (Option Json)) (page : Option (Soup × String)) : Option ℤ :=
  if ¬ truthyStr url ∧ ¬ truthyStr flipkart_pid then none
  else
    let price0 : Option ℤ :=
      if truthyStr flipkart_pid then fetch_flipkart_price_by_pid responses else none
    if price0 = none ∧ truthyStr url then
      match page with
      | none => none
      | some (soup, html) => py_truthy_guard (extract_price_from_html soup html url)
    else
      py_truthy_guard price0

/-! ## Stage decompositions and concrete documents used in the statements -/

/-- The candidates of the first selection stage of `extract_price_from_html`:
structured extraction with the site profile picked from the URL. -/
def stage1_candidates (soup : Soup) (url : Option String) : List ℤ :=
  extract_candidates_by_selectors soup
    (if hasSubStr "amazon" (lowerStr (url.getD "")) then amazon_selectors else default_selectors)

/-- The combined candidates of the second stage: the first stage's
candidates with the default profile's candidates appended. -/
def stage2_candidates (soup : Soup) (url : Option String) : List ℤ :=
  stage1_candidates soup url ++ extract_candidates_by_selectors soup default_selectors

/-- A page whose default-profile selectors read a sale price, a list price
and an unrelated MRP. -/
def soup_three_prices : Soup :=
  { content := fun _ => none,
    text := fun sel =>
      if sel = ".price" then some "₹45,999"
      else if sel = ".product-price" then some "46999"
      else if sel = ".offer-price" then some "89999"
      else none }

/-- A page whose `.price` element reads `2000 model`. -/
def soup_model_text : Soup :=
  { content := fun _ => none,
    text := fun sel => if sel = ".price" then some "2000 model" else none }

/-- A page whose `.price` element reads the EMI fragment `₹3,999/month`. -/
def soup_emi_fragment : Soup :=
  { content := fun _ => none,
    text := fun sel => if sel = ".price" then some "₹3,999/month" else none }

/-- The JSON document `{"sellingPrice": 41999, "mrp": 59999}`. -/
def json_selling_mrp : Json :=
  Json.obj [("sellingPrice", Json.num 41999), ("mrp", Json.num 59999)]

/-- A one-row history: price 52999 for product key `k`, checked at time 10. -/
def hist_single_52999 : List Obs :=
  [{ url := "k", site := "flipkart", product_name := "item", price := 52999, checked_at := 10 }]

/-- A one-row history: price 47999 for product key `k`, checked at time 1. -/
def hist_single_47999 : List Obs :=
  [{ url := "k", site := "flipkart", product_name := "item", price := 47999, checked_at := 1 }]

theorem mem_clean (l : List (Option ℤ)) :
    ∀ (acc : List ℤ) (v : ℤ),
      v ∈ clean l acc ↔ v ∈ acc ∨ (some v ∈ l ∧ inBounds v) := by
  induction l with
  | nil => intro acc v; simp [clean]
  | cons hd rest ih =>
    intro acc v
    match hd with
    | none => simp [clean, ih]
    | some w =>
      by_cases hw : w < MIN_REASONABLE_PRICE ∨ MAX_REASONABLE_PRICE < w
      · rw [clean, if_pos hw, ih]
        constructor
        · rintro (h | ⟨h1, h2⟩)
          · exact Or.inl h
          · exact Or.inr ⟨List.mem_cons_of_mem _ h1, h2⟩
        · rintro (h | ⟨h1, h2⟩)
          · exact Or.inl h
          · rcases List.mem_cons.1 h1 with h1 | h1
            · exfalso
              have : v = w := by injection h1
              subst this
              rcases h2 with ⟨hlo, hhi⟩
              rcases hw with hw | hw <;> omega
            · exact Or.inr ⟨h1, h2⟩
      · push_neg at hw
        have hwB : inBounds w := ⟨by omega, by omega⟩
        by_cases hmem : w ∈ acc
        · rw [clean, if_neg (by push_neg; exact ⟨by omega, by omega⟩), if_pos hmem, ih]
          constructor
          · rintro (h | ⟨h1, h2⟩)
            · exact Or.inl h
            · exact Or.inr ⟨List.mem_cons_of_mem _ h1, h2⟩
          · rintro (h | ⟨h1, h2⟩)
            · exact Or.inl h
            · rcases List.mem_cons.1 h1 with h1 | h1
              · have : v = w := by injection h1
                subst this; exact Or.inl hmem
              · exact Or.inr ⟨h1, h2⟩
        · rw [clean, if_neg (by push_neg; exact ⟨by omega, by omega⟩), if_neg hmem, ih]
          constructor
          · rintro (h | ⟨h1, h2⟩)
            · rcases List.mem_append.1 h with h | h
              · exact Or.inl h
              · have : v = w := by simpa using h
                subst this
                exact Or.inr ⟨List.mem_cons_self _ _, hwB⟩
            · exact Or.inr ⟨List.mem_cons_of_mem _ h1, h2⟩
          · rintro (h | ⟨h1, h2⟩)
            · exact Or.inl (List.mem_append.2 (Or.inl h))
            · rcases List.mem_cons.1 h1 with h1 | h1
              · have : v = w := by injection h1
                subst this
                exact Or.inl (List.mem_append.2 (Or.inr (by simp)))
              · exact Or.inr ⟨h1, h2⟩

theorem nodup_clean (l : List (Option ℤ)) :
    ∀ acc : List ℤ, acc.Nodup → (clean l acc).Nodup := by
  induction l with
  | nil => intro acc h; simpa [clean] using h
  | cons hd rest ih =>
    intro acc hacc
    match hd with
    | none => simpa [clean] using ih acc hacc
    | some w =>
      by_cases hw : w < MIN_REASONABLE_PRICE ∨ MAX_REASONABLE_PRICE < w
      · rw [clean, if_pos hw]; exact ih acc hacc
      · by_cases hmem : w ∈ acc
        · rw [clean, if_neg hw, if_pos hmem]; exact ih acc hacc
        · rw [clean, if_neg hw, if_neg hmem]
          exact ih _ (by simp [List.nodup_append, hacc, hmem])

theorem mem_filter_candidates (l : List (Option ℤ)) (v : ℤ) :
    v ∈ filter_candidates l ↔ some v ∈ l ∧ inBounds v := by
  unfold filter_candidates
  rw [List.mem_insertionSort, mem_clean]
  simp

theorem sorted_filter_candidates (l : List (Option ℤ)) :
    (filter_candidates l).Sorted (· ≤ ·) :=
  List.sorted_insertionSort _ _

theorem nodup_filter_candidates (l : List (Option ℤ)) :
    (filter_candidates l).Nodup :=
  (List.perm_insertionSort _ _).nodup_iff.2 (nodup_clean l [] List.nodup_nil)

/-- The head of a non-empty `filter_candidates` output is its minimum. -/
theorem filter_candidates_head_min (l : List (Option ℤ)) (p : ℤ) (rest : List ℤ)
    (h : filter_candidates l = p :: rest) :
    p ∈ filter_candidates l ∧ ∀ q ∈ filter_candidates l, p ≤ q := by
  have hs := sorted_filter_candidates l
  rw [h] at hs ⊢
  refine ⟨List.mem_cons_self _ _, ?_⟩
  intro q hq
  rcases List.mem_cons.1 hq with hq | hq
  · omega
  · exact List.rel_of_sorted_cons hs _ hq

/-! ## Helper lemmas -/

theorem whitelistHit_bounds {k : String} {v : Json} {n : ℤ}
    (h : whitelistHit k v = some n) : inBounds n ∧ n ≠ 0 := by
  unfold whitelistHit at h
  split at h
  · split at h
    · split at h
      · rename_i hcond
        injection h with h'
        subst h'
        exact ⟨⟨hcond.2.1, hcond.2.2⟩, hcond.1⟩
      · exact absurd h (by simp)
    · exact absurd h (by simp)
  · exact absurd h (by simp)

theorem rupeeHit_bounds {v : Json} {n : ℤ}
    (h : rupeeHit v = some n) : inBounds n ∧ n ≠ 0 := by
  unfold rupeeHit at h
  split at h
  · split at h
    · split at h
      · split at h
        · rename_i hcond
          injection h with h'
          subst h'
          exact ⟨⟨hcond.2.1, hcond.2.2⟩, hcond.1⟩
        · exact absurd h (by simp)
      · exact absurd h (by simp)
    · exact absurd h (by simp)
  · exact absurd h (by simp)

theorem find_price_spec_aux :
    ∀ n : ℕ,
      (∀ j : Json, sizeOf j ≤ n →
        find_price_in_json j = (jsonHits j).head? ∧ ∀ p ∈ jsonHits j, inBounds p) ∧
      (∀ kvs : List (String × Json), sizeOf kvs ≤ n →
        find_in_obj kvs = (hitsObj kvs).head? ∧ ∀ p ∈ hitsObj kvs, inBounds p) ∧
      (∀ xs : List Json, sizeOf xs ≤ n →
        find_in_arr xs = (hitsArr xs).head? ∧ ∀ p ∈ hitsArr xs, inBounds p) := by
  intro n
  induction n with
  | zero =>
    refine ⟨?_, ?_, ?_⟩
    · intro j h; exfalso; cases j <;> simp at h
    · intro kvs h; exfalso; cases kvs <;> simp at h
    · intro xs h; exfalso; cases xs <;> simp at h
  | succ n ih =>
    obtain ⟨ihJ, ihO, ihA⟩ := ih
    refine ⟨?_, ?_, ?_⟩
    · intro j hle
      match j with
      | .str _ => simp [find_price_in_json, jsonHits]
      | .num _ => simp [find_price_in_json, jsonHits]
      | .bool _ => simp [find_price_in_json, jsonHits]
      | .null => simp [find_price_in_json, jsonHits]
      | .obj kvs =>
        have h1 : sizeOf kvs ≤ n := by simp at hle; omega
        obtain ⟨a, b⟩ := ihO kvs h1
        exact ⟨by simp [find_price_in_json, jsonHits, a],
          by simpa [jsonHits] using b⟩
      | .arr xs =>
        have h1 : sizeOf xs ≤ n := by simp at hle; omega
        obtain ⟨a, b⟩ := ihA xs h1
        exact ⟨by simp [find_price_in_json, jsonHits, a],
          by simpa [jsonHits] using b⟩
    · intro kvs hle
      match kvs with
      | [] => simp [find_in_obj, hitsObj]
      | (k, v) :: rest =>
        have hszv : sizeOf v ≤ n := by simp at hle; omega
        have hszr : sizeOf rest ≤ n := by simp at hle; omega
        obtain ⟨fv, bv⟩ := ihJ v hszv
        obtain ⟨fr, br⟩ := ihO rest hszr
        have hfind : find_in_obj ((k, v) :: rest) =
            (if isContainer v then
              match find_price_in_json v with
              | some p => if p = 0 then find_in_obj rest else some p
              | none => find_in_obj rest
            else
              match whitelistHit k v with
              | some m => some m
              | none =>
                match rupeeHit v with
                | some m => some m
                | none => find_in_obj rest) := rfl
        have hhits : hitsObj ((k, v) :: rest) =
            (if isContainer v then jsonHits v
             else
               match whitelistHit k v with
               | some m => [m]
               | none =>
                 match rupeeHit v with
                 | some m => [m]
                 | none => []) ++ hitsObj rest := rfl
        by_cases hc : isContainer v
        · constructor
          · rw [hfind, hhits, if_pos hc, if_pos hc, fv]
            cases hh : jsonHits v with
            | nil => simpa using fr
            | cons q qs =>
              have hq : inBounds q := bv q (by rw [hh]; exact List.mem_cons_self _ _)
              have : ¬ q = 0 := by
                rcases hq with ⟨h1, _⟩
                unfold MIN_REASONABLE_PRICE at h1
                omega
              simp [this]
          · intro p hp
            rw [hhits, if_pos hc] at hp
            rcases List.mem_append.1 hp with hp | hp
            · exact bv p hp
            · exact br p hp
        · constructor
          · rw [hfind, hhits, if_neg hc, if_neg hc]
            cases hw : whitelistHit k v with
            | some m => simp
            | none =>
              cases hru : rupeeHit v with
              | some m => simp
              | none => simpa using fr
          · intro p hp
            rw [hhits, if_neg hc] at hp
            rcases List.mem_append.1 hp with hp | hp
            · cases hw : whitelistHit k v with
              | some m =>
                rw [hw] at hp
                have : p = m := by simpa using hp
                subst this
                exact (whitelistHit_bounds hw).1
              | none =>
                rw [hw] at hp
                cases hru : rupeeHit v with
                | some m =>
                  rw [hru] at hp
                  have : p = m := by simpa using hp
                  subst this
                  exact (rupeeHit_bounds hru).1
                | none => rw [hru] at hp; simp at hp
            · exact br p hp
    · intro xs hle
      match xs with
      | [] => simp [find_in_arr, hitsArr]
      | x :: rest =>
        have hszx : sizeOf x ≤ n := by simp at hle; omega
        have hszr : sizeOf rest ≤ n := by simp at hle; omega
        obtain ⟨fx, bx⟩ := ihJ x hszx
        obtain ⟨fr, br⟩ := ihA rest hszr
        constructor
        · rw [show find_in_arr (x :: rest) =
              (match find_price_in_json x with
               | some p => if p = 0 then find_in_arr rest else some p
               | none => find_in_arr rest) from rfl]
          rw [show hitsArr (x :: rest) = jsonHits x ++ hitsArr rest from rfl, fx]
          cases hh : jsonHits x with
          | nil => simpa using fr
          | cons q qs =>
            have hq : inBounds q := bx q (by rw [hh]; exact List.mem_cons_self _ _)
            have : ¬ q = 0 := by
              rcases hq with ⟨h1, _⟩
              unfold MIN_REASONABLE_PRICE at h1
              omega
            simp [this]
        · intro p hp
          rw [show hitsArr (x :: rest) = jsonHits x ++ hitsArr rest from rfl] at hp
          rcases List.mem_append.1 hp with hp | hp
          · exact bx p hp
          · exact br p hp

theorem find_price_spec (j : Json) :
    find_price_in_json j = (jsonHits j).head? ∧ ∀ p ∈ jsonHits j, inBounds p :=
  (find_price_spec_aux (sizeOf j)).1 j (Nat.le_refl _)

theorem find_price_in_json_bounds {j : Json} {p : ℤ}
    (h : find_price_in_json j = some p) : inBounds p := by
  obtain ⟨h1, h2⟩ := find_price_spec j
  rw [h1] at h
  exact h2 p (List.mem_of_mem_head? h)

theorem fetch_flipkart_bounds :
    ∀ {responses : List (Option Json)} {p : ℤ},
      fetch_flipkart_price_by_pid responses = some p → inBounds p := by
  intro responses
  induction responses with
  | nil => intro p h; simp [fetch_flipkart_price_by_pid] at h
  | cons r rest ih =>
    intro p h
    unfold fetch_flipkart_price_by_pid at h
    match r with
    | none => exact ih h
    | some data =>
      simp only at h
      split at h
      · split at h
        · split at h
          · exact ih h
          · rename_i hfind _
            injection h with h'
            subst h'
            exact find_price_in_json_bounds hfind
        · exact ih h
      · exact ih h

theorem extract_price_from_html_bounds {soup : Soup} {text : String}
    {url : Option String} {p : ℤ}
    (h : extract_price_from_html soup text url = some p) : inBounds p := by
  unfold extract_price_from_html at h
  dsimp only at h
  split at h
  · rename_i heq
    injection h with h'
    subst h'
    exact (mem_filter_candidates _ _).1 (heq ▸ List.mem_cons_self _ _) |>.2
  · split at h
    · rename_i heq
      injection h with h'
      subst h'
      exact (mem_filter_candidates _ _).1 (heq ▸ List.mem_cons_self _ _) |>.2
    · split at h
      · rename_i heq
        injection h with h'
        subst h'
        exact (mem_filter_candidates _ _).1 (heq ▸ List.mem_cons_self _ _) |>.2
      · exact absurd h (by simp)

theorem foldl_min_mem (xs : List ℤ) : ∀ x : ℤ, xs.foldl min x ∈ x :: xs := by
  induction xs with
  | nil => intro x; simp
  | cons y ys ih =>
    intro x
    rw [List.foldl_cons]
    rcases List.mem_cons.1 (ih (min x y)) with h | h
    · rw [h]
      rcases min_choice x y with hm | hm <;> rw [hm] <;> simp
    · simp [h]

theorem foldl_min_le (xs : List ℤ) : ∀ x : ℤ, ∀ q ∈ x :: xs, xs.foldl min x ≤ q := by
  induction xs with
  | nil => intro x q hq; simp at hq; subst hq; simp
  | cons y ys ih =>
    intro x q hq
    rw [List.foldl_cons]
    rcases List.mem_cons.1 hq with h | h
    · subst h
      exact le_trans (ih _ _ (List.mem_cons_self _ _)) (min_le_left _ _)
    · rcases List.mem_cons.1 h with h | h
      · subst h
        exact le_trans (ih _ _ (List.mem_cons_self _ _)) (min_le_right _ _)
      · exact ih _ _ (List.mem_cons_of_mem _ h)

theorem sql_min_spec {xs : List ℤ} {m : ℤ} (h : sql_min xs = some m) :
    m ∈ xs ∧ ∀ q ∈ xs, m ≤ q := by
  match xs with
  | [] => simp [sql_min] at h
  | x :: rest =>
    unfold sql_min at h
    injection h with h'
    subst h'
    exact ⟨foldl_min_mem rest x, foldl_min_le rest x⟩

theorem clean_map_some :
    ∀ (ys : List ℤ) (acc : List ℤ), ys.Nodup →
      (∀ y ∈ ys, inBounds y ∧ y ∉ acc) → clean (ys.map some) acc = acc ++ ys := by
  intro ys
  induction ys with
  | nil => intro acc _ _; simp [clean]
  | cons y ys ih =>
    intro acc hnd hy
    obtain ⟨⟨hlo, hhi⟩, hnot⟩ := hy y (List.mem_cons_self _ _)
    rw [List.map_cons, clean, if_neg (by push_neg; exact ⟨hlo, hhi⟩), if_neg hnot,
      ih (acc ++ [y]) (List.Nodup.of_cons hnd)]
    · simp
    · intro z hz
      refine ⟨(hy z (List.mem_cons_of_mem _ hz)).1, ?_⟩
      intro hmem
      rcases List.mem_append.1 hmem with hm | hm
      · exact (hy z (List.mem_cons_of_mem _ hz)).2 hm
      · have : z = y := by simpa using hm
        subst this
        exact (List.nodup_cons.1 hnd).1 hz

theorem filter_candidates_fixed (ys : List ℤ) (hnd : ys.Nodup)
    (hs : ys.Sorted (· ≤ ·)) (hb : ∀ y ∈ ys, inBounds y) :
    filter_candidates (ys.map some) = ys := by
  unfold filter_candidates
  rw [clean_map_some ys [] hnd (fun y hy => ⟨hb y hy, by simp⟩), List.nil_append]
  exact hs.insertionSort_eq

theorem filter_candidates_idem (xs : List (Option ℤ)) :
    filter_candidates ((filter_candidates xs).map some) = filter_candidates xs :=
  filter_candidates_fixed _ (nodup_filter_candidates xs) (sorted_filter_candidates xs)
    (fun y hy => ((mem_filter_candidates xs y).1 hy).2)

theorem foldl_pass (groups : List (List Char)) :
    ∀ acc : List ℤ,
      groups.foldl (fun acc g =>
        match only_digits_int (String.mk g) with
        | some n => if n = 0 then acc else acc ++ [n]
        | none => acc) acc = acc ++ pass_candidates groups := by
  induction groups with
  | nil => intro acc; simp [pass_candidates]
  | cons g rest ih =>
    intro acc
    rw [List.foldl_cons]
    have hps : pass_candidates (g :: rest) =
        (match only_digits_int (String.mk g) with
         | some n => if n = 0 then [] else [n]
         | none => []) ++ pass_candidates rest := by
      simp [pass_candidates]
    cases hg : only_digits_int (String.mk g) with
    | none =>
      simp only [hg]
      rw [ih, hps, hg]
      simp
    | some n =>
      by_cases hn : n = 0
      · simp only [hg, if_pos hn]
        rw [ih, hps, hg]
        simp [hn]
      · simp only [hg, if_neg hn]
        rw [ih, hps, hg]
        simp [hn]

/-- `extract_price_from_html` phrased over the stage candidate lists. -/
theorem extract_price_eq (soup : Soup) (text : String) (url : Option String) :
    extract_price_from_html soup text url =
      match filter_candidates ((stage1_candidates soup url).map some) with
      | p :: _ => some p
      | [] =>
        match filter_candidates ((stage2_candidates soup url).map some) with
        | p :: _ => some p
        | [] =>
          match filter_candidates ((fallback_regex_candidates text).map some) with
          | p :: _ => some p
          | [] => none := by
  unfold extract_price_from_html stage1_candidates stage2_candidates
  rfl

/-! ## The claims -/

/-- C1: whenever a stage of the Price Selector (`extract_price_from_html`)
yields a non-empty filtered candidate set, the value returned is the
smallest element of that stage's filtered (combined) candidate set; on a
page whose candidates are 45999, 46999 and 89999 it returns 45999. -/
theorem C1_selector_returns_stage_minimum :
    (∀ (soup : Soup) (text : String) (url : Option String),
      (filter_candidates ((stage1_candidates soup url).map some) ≠ [] →
        ∃ p, extract_price_from_html soup text url = some p ∧
          p ∈ filter_candidates ((stage1_candidates soup url).map some) ∧
          ∀ q ∈ filter_candidates ((stage1_candidates soup url).map some), p ≤ q) ∧
      (filter_candidates ((stage1_candidates soup url).map some) = [] →
        filter_candidates ((stage2_candidates soup url).map some) ≠ [] →
        ∃ p, extract_price_from_html soup text url = some p ∧
          p ∈ filter_candidates ((stage2_candidates soup url).map some) ∧
          ∀ q ∈ filter_candidates ((stage2_candidates soup url).map some), p ≤ q) ∧
      (filter_candidates ((stage1_candidates soup url).map some) = [] →
        filter_candidates ((stage2_candidates soup url).map some) = [] →
        filter_candidates ((fallback_regex_candidates text).map some) ≠ [] →
        ∃ p, extract_price_from_html soup text url = some p ∧
          p ∈ filter_candidates ((fallback_regex_candidates text).map some) ∧
          ∀ q ∈ filter_candidates ((fallback_regex_candidates text).map some), p ≤ q)) ∧
    (filter_candidates
        ((stage1_candidates soup_three_prices (some "https://example.com/p")).map some) =
      [45999, 46999, 89999] ∧
     extract_price_from_html soup_three_prices "" (some "https://example.com/p") = some 45999) := by
  constructor
  · intro soup text url
    refine ⟨?_, ?_, ?_⟩
    · intro h1
      rcases List.exists_cons_of_ne_nil h1 with ⟨p, rest, hp⟩
      obtain ⟨hm1, hm2⟩ := filter_candidates_head_min _ _ _ hp
      exact ⟨p, by rw [extract_price_eq, hp], hm1, hm2⟩
    · intro h1 h2
      rcases List.exists_cons_of_ne_nil h2 with ⟨p, rest, hp⟩
      obtain ⟨hm1, hm2⟩ := filter_candidates_head_min _ _ _ hp
      exact ⟨p, by rw [extract_price_eq, h1, hp], hm1, hm2⟩
    · intro h1 h2 h3
      rcases List.exists_cons_of_ne_nil h3 with ⟨p, rest, hp⟩
      obtain ⟨hm1, hm2⟩ := filter_candidates_head_min _ _ _ hp
      exact ⟨p, by rw [extract_price_eq, h1, h2, hp], hm1, hm2⟩
  · exact ⟨by decide, by decide⟩

/-- Witness for C1 at the three-price page: the first stage filters to a
non-empty set and 45999 is returned as its minimum. -/
theorem C1_selector_returns_stage_minimum_witness :
    ∃ p, extract_price_from_html soup_three_prices "" (some "https://example.com/p") = some p ∧
      p ∈ filter_candidates
        ((stage1_candidates soup_three_prices (some "https://example.com/p")).map some) ∧
      ∀ q ∈ filter_candidates
        ((stage1_candidates soup_three_prices (some "https://example.com/p")).map some), p ≤ q :=
  (C1_selector_returns_stage_minimum.1 soup_three_prices "" (some "https://example.com/p")).1
    (by decide)

/-- C2: with no prior record the observation is classified `new_tracking`
and notified; with a prior record and a strictly lower new price it is
`price_drop` with `percentDrop = (lastPrice - newPrice) / lastPrice * 100`;
otherwise it is `no_change` with no notification.  In particular a rise
from 47999 to 48999 is `no_change`. -/
theorem C2_change_detector_classification :
    (∀ (hist : List Obs) (key : String) (price : ℤ),
      (get_last_price hist key = none →
        check_alert hist key price =
          { kind := AlertKind.new_tracking, percentDrop := none, notified := true }) ∧
      (∀ lp : ℤ, get_last_price hist key = some lp → price < lp →
        check_alert hist key price =
          { kind := AlertKind.price_drop,
            percentDrop := some (((lp : ℚ) - (price : ℚ)) / (lp : ℚ) * 100),
            notified := true }) ∧
      (∀ lp : ℤ, get_last_price hist key = some lp → lp ≤ price →
        check_alert hist key price =
          { kind := AlertKind.no_change, percentDrop := none, notified := false })) ∧
    check_alert hist_single_47999 "k" 48999 =
      { kind := AlertKind.no_change, percentDrop := none, notified := false } := by
  constructor
  · intro hist key price
    refine ⟨?_, ?_, ?_⟩
    · intro h; simp [check_alert, h]
    · intro lp h hlt; simp [check_alert, h, hlt]
    · intro lp h hge; simp [check_alert, h, not_lt.2 hge]
  · decide

/-- Witness for C2: an empty history yields `new_tracking` with a
notification. -/
theorem C2_change_detector_classification_witness :
    check_alert ([] : List Obs) "k" 52999 =
      { kind := AlertKind.new_tracking, percentDrop := none, notified := true } :=
  (C2_change_detector_classification.1 [] "k" 52999).1 rfl

/-- C3 fails on the code: the drop message computes `last_n_days_low`
before `save_price` runs, so the window never contains the new
observation.  With only a prior price 52999 in the window and new price
47999, the classification is `price_drop` but the reported rolling low is
52999, not the 47999 the claim requires. -/
theorem C3_counterexample :
    (check_alert hist_single_52999 "k" 47999).kind = AlertKind.price_drop ∧
    window_prices hist_single_52999 "k" 0 = [52999] ∧
    reported_rolling_low hist_single_52999 "k" 0 47999 = 52999 ∧
    (52999 : ℤ) ≠ 47999 := by
  refine ⟨by decide, by decide, by decide, by decide⟩

/-- C3 (amended): for a `price_drop` classification the reported rolling
low is the minimum price among the observations already stored for the
product key inside the trailing window — exclusive of the new observation,
which is appended only after the message — and it falls back to the new
price when no stored observation lies in the window. -/
theorem C3_rolling_low_prior_minimum :
    ∀ (hist : List Obs) (key : String) (cutoff price : ℤ),
      (check_alert hist key price).kind = AlertKind.price_drop →
      (∀ q ∈ window_prices hist key cutoff, 0 < q) →
      (window_prices hist key cutoff ≠ [] →
        reported_rolling_low hist key cutoff price ∈ window_prices hist key cutoff ∧
        ∀ q ∈ window_prices hist key cutoff,
          reported_rolling_low hist key cutoff price ≤ q) ∧
      (window_prices hist key cutoff = [] →
        reported_rolling_low hist key cutoff price = price) := by
  intro hist key cutoff price _ hpos
  constructor
  · intro hne
    rcases List.exists_cons_of_ne_nil hne with ⟨x, xs, hx⟩
    have hmin : sql_min (window_prices hist key cutoff) = some (xs.foldl min x) := by
      rw [hx]; rfl
    obtain ⟨hm1, hm2⟩ := sql_min_spec hmin
    have hm0 : ¬ xs.foldl min x = 0 := by
      have := hpos _ hm1; omega
    unfold reported_rolling_low last_n_days_low
    rw [hmin]
    simpa [hm0] using ⟨hm1, hm2⟩
  · intro hnil
    unfold reported_rolling_low last_n_days_low
    rw [hnil]
    rfl

/-- Witness for the amended C3: with one in-window prior price 52999 and
new price 47999, the reported rolling low is the in-window minimum. -/
theorem C3_rolling_low_prior_minimum_witness :
    reported_rolling_low hist_single_52999 "k" 0 47999 ∈
      window_prices hist_single_52999 "k" 0 ∧
    ∀ q ∈ window_prices hist_single_52999 "k" 0,
      reported_rolling_low hist_single_52999 "k" 0 47999 ≤ q :=
  (C3_rolling_low_prior_minimum hist_single_52999 "k" 0 47999
    (by decide) (by decide)).1 (by decide)

/-- C4: `filter_candidates` returns an ascending, duplicate-free list of
exactly the distinct in-bounds non-null input values, empty (never an
error) when nothing survives; `[1500, 1500, 1200]` yields `[1200, 1500]`. -/
theorem C4_filter_candidates_contract :
    (∀ xs : List (Option ℤ),
      (filter_candidates xs).Sorted (· ≤ ·) ∧
      (filter_candidates xs).Nodup ∧
      (∀ v : ℤ, v ∈ filter_candidates xs ↔
        some v ∈ xs ∧ MIN_REASONABLE_PRICE ≤ v ∧ v ≤ MAX_REASONABLE_PRICE) ∧
      ((∀ v : ℤ, some v ∈ xs →
          ¬(MIN_REASONABLE_PRICE ≤ v ∧ v ≤ MAX_REASONABLE_PRICE)) →
        filter_candidates xs = [])) ∧
    filter_candidates [some 1500, some 1500, some 1200] = [1200, 1500] := by
  constructor
  · intro xs
    refine ⟨sorted_filter_candidates xs, nodup_filter_candidates xs, ?_, ?_⟩
    · intro v
      simpa [inBounds] using mem_filter_candidates xs v
    · intro h
      rw [List.eq_nil_iff_forall_not_mem]
      intro v hv
      obtain ⟨h1, h2⟩ := (mem_filter_candidates xs v).1 hv
      exact h v h1 ⟨h2.1, h2.2⟩
  · decide

/-- Witness for C4: a list whose values are all out of bounds or null
filters to the empty list. -/
theorem C4_filter_candidates_contract_witness :
    filter_candidates [some 5, none, some 999999] = [] :=
  (C4_filter_candidates_contract.1 [some 5, none, some 999999]).2.2.2 (by
    intro v hv
    simp only [List.mem_cons, List.not_mem_nil, or_false] at hv
    rcases hv with h | h | h
    · injection h with h; subst h; decide
    · exact absurd h (by simp)
    · injection h with h; subst h; decide)

/-- C5 fails on the code: the claim rejects any value containing the
substring `mo` case-insensitively, but the code's pattern is `mo\b` (word
boundary).  The rule value `2000 model` contains `mo`, yet structured
extraction still produces the candidate 2000. -/
theorem C5_counterexample :
    hasSubStr "mo" (lowerStr "2000 model") = true ∧
    extract_candidates_by_selectors soup_model_text default_selectors = [2000] :=
  ⟨by decide, by decide⟩

/-- C5 (amended): a rule value is rejected before numeric parsing when it
contains a `/`, or case-insensitively `per month`, `emi`, or `mo` as a
whole word (with a word boundary after it); such a value contributes no
candidate, and in particular the fragment `₹3,999/month` never
contributes one. -/
theorem C5_emi_rejection_amended :
    (∀ (soup : Soup) (sel : String),
      emi_reject (lowerStr (read_val soup sel)).data = true →
      sel_candidates soup sel = []) ∧
    extract_candidates_by_selectors soup_emi_fragment default_selectors = [] := by
  constructor
  · intro soup sel h
    unfold sel_candidates
    by_cases hv : read_val soup sel = ""
    · simp [hv]
    · simp [hv, h]
  · decide

/-- Witness for the amended C5: the EMI fragment's selector contributes no
candidate. -/
theorem C5_emi_rejection_amended_witness :
    sel_candidates soup_emi_fragment ".price" = [] :=
  C5_emi_rejection_amended.1 soup_emi_fragment ".price" (by decide)

/-- C6 fails on the code: for the text `₹45999 123456` the currency-prefixed
first pass yields the usable candidate 45999, yet the bare digit-group
candidate 123456 — produced only by the second pass — still appears in the
result: `fallback_regex_candidates` runs both passes unconditionally. -/
theorem C6_counterexample :
    filter_candidates
      ((pass_candidates (rupee_matches "₹45999 123456".data)).map some) ≠ [] ∧
    (123456 : ℤ) ∉ pass_candidates (rupee_matches "₹45999 123456".data) ∧
    (123456 : ℤ) ∈ pass_candidates (bare_matches "₹45999 123456".data) ∧
    (123456 : ℤ) ∈ fallback_regex_candidates "₹45999 123456" :=
  ⟨by decide, by decide, by decide, by decide⟩

/-- C6 (amended): both regex passes always run; the result is the
first-pass (currency-prefixed) candidates followed by the second-pass
(bare digit-group) candidates, whether or not the first pass yielded
anything usable. -/
theorem C6_both_passes_always_run :
    ∀ text : String,
      fallback_regex_candidates text =
        pass_candidates (rupee_matches text.data) ++
          pass_candidates (bare_matches text.data) := by
  intro text
  unfold fallback_regex_candidates
  dsimp only
  rw [foldl_pass, foldl_pass, List.nil_append]

/-- C7 fails on the code: `guess_site` tests only `amazon.` and
`flipkart.`; a URL containing `myg.` is classified `"unknown"`, not a myg
tag. -/
theorem C7_counterexample :
    hasSubStr "myg." (lowerStr "https://www.myg.in/phone") = true ∧
    guess_site (some "https://www.myg.in/phone") = "unknown" :=
  ⟨by decide, by decide⟩

/-- C7 (amended): `guess_site` is a pure case-insensitive substring match
returning `"amazon"` for URLs containing `amazon.`, else `"flipkart"` for
`flipkart.`, in that priority order, and `"unknown"` for everything else —
including myg/croma URLs — and for an absent or empty URL; it never
fails. -/
theorem C7_guess_site_amended :
    guess_site none = "unknown" ∧
    guess_site (some "") = "unknown" ∧
    (∀ u : String, hasSubStr "amazon." (lowerStr u) = true →
      guess_site (some u) = "amazon") ∧
    (∀ u : String, hasSubStr "amazon." (lowerStr u) = false →
      hasSubStr "flipkart." (lowerStr u) = true → guess_site (some u) = "flipkart") ∧
    (∀ u : String, hasSubStr "amazon." (lowerStr u) = false →
      hasSubStr "flipkart." (lowerStr u) = false → guess_site (some u) = "unknown") := by
  refine ⟨rfl, rfl, ?_, ?_, ?_⟩
  · intro u h
    by_cases hu : u = ""
    · subst hu; exact absurd h (by decide)
    · simp [guess_site, hu, h]
  · intro u h1 h2
    by_cases hu : u = ""
    · subst hu; exact absurd h2 (by decide)
    · simp [guess_site, hu, h1, h2]
  · intro u h1 h2
    by_cases hu : u = ""
    · subst hu; rfl
    · simp [guess_site, hu, h1, h2]

/-- Witness for the amended C7: an upper-case Amazon URL classifies as
`"amazon"`. -/
theorem C7_guess_site_amended_witness :
    guess_site (some "https://www.AMAZON.in/dp/X") = "amazon" :=
  C7_guess_site_amended.2.2.1 "https://www.AMAZON.in/dp/X" (by decide)

/-- C8: `find_price_in_json` returns the first value encountered in the
depth-first walk that is in bounds and comes from a whitelisted key or a
currency-prefixed pattern in a string value (the head of the hit list),
terminating there; every hit is in bounds; on
`{"sellingPrice": 41999, "mrp": 59999}` it returns 41999, never the
non-whitelisted `mrp` value. -/
theorem C8_find_price_first_hit :
    (∀ j : Json, find_price_in_json j = (jsonHits j).head?) ∧
    (∀ j : Json, ∀ p ∈ jsonHits j, inBounds p) ∧
    find_price_in_json json_selling_mrp = some 41999 := by
  refine ⟨fun j => (find_price_spec j).1, fun j => (find_price_spec j).2, ?_⟩
  decide

/-- Witness for C8: the hit 41999 of the example document is in bounds. -/
theorem C8_find_price_first_hit_witness : inBounds 41999 :=
  C8_find_price_first_hit.2.1 json_selling_mrp 41999 (by decide)

theorem py_truthy_guard_some {o : Option ℤ} {p : ℤ}
    (h : py_truthy_guard o = some p) : o = some p := by
  match o with
  | none => simp [py_truthy_guard] at h
  | some q =>
    by_cases hq : q = 0
    · simp [py_truthy_guard, hq] at h
    · simp [py_truthy_guard, hq] at h
      rw [h]

/-- C9: every price `check_item` passes to `save_price` lies within
`[MIN_REASONABLE_PRICE, MAX_REASONABLE_PRICE]` (defaults 1000 and 200000),
on both the Flipkart-API path and the HTML extraction path. -/
theorem C9_saved_price_in_bounds :
    (∀ (url flipkart_pid : Option String) (responses : List (Option Json))
        (page : Option (Soup × String)) (p : ℤ),
      check_item_saved_price url flipkart_pid responses page = some p →
      MIN_REASONABLE_PRICE ≤ p ∧ p ≤ MAX_REASONABLE_PRICE) ∧
    MIN_REASONABLE_PRICE = 1000 ∧ MAX_REASONABLE_PRICE = 200000 := by
  refine ⟨?_, rfl, rfl⟩
  intro url pid responses page p h
  unfold check_item_saved_price at h
  dsimp only at h
  by_cases h0 : ¬ truthyStr url = true ∧ ¬ truthyStr pid = true
  · rw [if_pos h0] at h
    exact absurd h (by simp)
  · rw [if_neg h0] at h
    by_cases h1 :
        (if truthyStr pid = true then fetch_flipkart_price_by_pid responses else none)
          = none ∧ truthyStr url = true
    · rw [if_pos h1] at h
      cases page with
      | none => exact absurd h (by simp)
      | some pr =>
        obtain ⟨soup, html⟩ := pr
        exact extract_price_from_html_bounds (py_truthy_guard_some h)
    · rw [if_neg h1] at h
      have h2 := py_truthy_guard_some h
      by_cases hp : truthyStr pid = true
      · rw [if_pos hp] at h2
        exact fetch_flipkart_bounds h2
      · rw [if_neg hp] at h2
        exact absurd h2 (by simp)

/-- Witness for C9: the Flipkart-API path saves 41999, which is in
bounds. -/
theorem C9_saved_price_in_bounds_witness :
    MIN_REASONABLE_PRICE ≤ 41999 ∧ (41999 : ℤ) ≤ MAX_REASONABLE_PRICE :=
  C9_saved_price_in_bounds.1 (some "u") (some "PID") [some json_selling_mrp] none
    41999 (by decide)

/-- C10: `filter_candidates` is idempotent — applying it to its own output
returns that output unchanged. -/
theorem C10_filter_candidates_idempotent :
    ∀ xs : List (Option ℤ),
      filter_candidates ((filter_candidates xs).map some) = filter_candidates xs :=
  filter_candidates_idem

end PriceTracker
